import Mathlib

/-!
# Verification of the conversation-state and function-call orchestration engine

A shallow embedding, in Lean 4, of the core of the Synaptic Slack bot:
the message formatter (`src/ai/openrouter/formatter.ts`), the function-call
dispatcher (`src/mcp/slack-functions.ts`), and the orchestration loop of the
Slack event handler (`processFunctionCalls` / `shouldContinueWorkflow` /
`generateFollowUpResponse` / `processMessageAndGenerateResponse`).

External effects (the Slack Web API, the OpenRouter model provider) are
modelled as explicit oracle parameters: the model provider is a list of
outcomes, one per provider call; the Slack API is a record of response
functions.  JavaScript exceptions are modelled with `Except`: a `throw`
inside a `try` block is an `Except.error` value, and a `catch` clause is a
`match` on that value.  JavaScript strings are Lean `String`s and JS objects
are `JValue` trees in insertion order.
-/

set_option maxRecDepth 10000

namespace Synaptic

/-- A JSON-like JavaScript value, as produced and consumed by the bot's
function handlers.  Object fields are kept in insertion order, exactly as a
JS engine enumerates them for `Object.values`. -/
inductive JValue where
  | str (s : String)
  | bool (b : Bool)
  | num (n : Int)
  | null
  | arr (elems : List JValue)
  | obj (fields : List (String × JValue))

instance : Inhabited JValue := ⟨JValue.null⟩

/-- A model-issued function call (`FunctionCall` in
`src/ai/interfaces/provider.ts`): a name and an `arguments` object whose
field order is the JS insertion order. -/
structure FunctionCall where
  name : String
  arguments : List (String × JValue)

instance : Inhabited FunctionCall := ⟨⟨"", []⟩⟩

/-- A model response as consumed by the orchestration loop: `content` plus
the list of requested function calls (metadata is never inspected by the
logic verified here and is omitted). -/
structure ModelResponse where
  content : String
  functionCalls : List FunctionCall

instance : Inhabited ModelResponse := ⟨⟨"", []⟩⟩

/-- One conversation message (`ConversationMessage`): role, text content,
optional author name, ISO-8601 timestamp.  The orchestration and formatting
code under verification only ever handles string content. -/
structure Msg where
  role : String
  content : String
  name : Option String := none
  timestamp : String := ""
  deriving DecidableEq, Repr, Inhabited

/-- JS `needle ∈ haystack` test on character lists (the semantics of
`String.prototype.includes`). -/
def listIncludes : List Char → List Char → Bool
  | _, [] => true
  | [], _ :: _ => false
  | c :: cs, pat => (pat.isPrefixOf (c :: cs)) || listIncludes cs pat

/-- JS `haystack.includes(needle)`. -/
def strIncludes (haystack needle : String) : Bool :=
  listIncludes haystack.data needle.data

/-- ASCII lower-casing of one character. -/
def jsLowerChar (c : Char) : Char :=
  if 'A' ≤ c ∧ c ≤ 'Z' then Char.ofNat (c.toNat + 32) else c

/-- JS `s.toLowerCase()` (ASCII range, which covers every string the
heuristic compares against). -/
def jsToLower (s : String) : String :=
  String.mk (s.data.map jsLowerChar)

/-! ## `shouldContinueWorkflow` (src/slack/events/index.ts)

The continuation predicate of the orchestration loop, translated clause by
clause from the source. -/

/-- The `multiStepWorkflows` table: `{first, next}` pairs, `next: null`
encoded as `none`.  Order matters, because the source scans it with
`Array.prototype.find`. -/
def multiStepWorkflows : List (String × Option String) :=
  [ ("searchChannels", some "sendMessage")
  , ("createChannel", some "inviteToChannel")
  , ("createChannel", some "sendMessage")
  , ("inviteToChannel", some "sendMessage")
  , ("createChannelAndInviteUsers", some "sendMessage")
  , ("searchChannels", none)
  , ("createChannel", none)
  , ("inviteToChannel", none)
  , ("createChannelAndInviteUsers", none) ]

/-- One entry of the `functionResults` array built by
`processFunctionCalls`: `{ name: functionCall.name, result }`. -/
structure NamedResult where
  name : String
  result : JValue

instance : Inhabited NamedResult := ⟨⟨"", JValue.null⟩⟩

/-- The `multiStepPhrases` keyword list of `shouldContinueWorkflow`. -/
def multiStepPhrases : List String :=
  [ "then", "after", "next", "finally", "and"
  , "post", "send", "share", "create", "invite"
  , "summary", "summarize", "channel", "meeting"
  , "welcome" ]

/-- The cue analysis of the last user message performed by the tail of
`shouldContinueWorkflow` (the `meeting`+`summary`, `create channel and
invite/add`, `create channel and send/message/welcome` patterns, then the
generic `multiStepPhrases` scan). -/
def userTextSuggestsMultiStep (lastUserMessage : String) : Bool :=
  let lower := jsToLower lastUserMessage
  if strIncludes lower "meeting" && strIncludes lower "summary" then true
  else if strIncludes lower "create" && strIncludes lower "channel" &&
      (strIncludes lower "invite" || strIncludes lower "add") then true
  else if strIncludes lower "create" && strIncludes lower "channel" &&
      (strIncludes lower "send" || strIncludes lower "message" ||
        strIncludes lower "welcome") then true
  else multiStepPhrases.any fun phrase => strIncludes lower (jsToLower phrase)

/-- The last user-role message of a history, with non-string content read as
`''` — the source maps `msg => typeof msg.content === 'string' ?
msg.content : ''` and then takes the last element, defaulting to `''`. -/
def lastUserMessageOf (conversationHistory : List Msg) : String :=
  let userMessages := (conversationHistory.filter fun m => m.role == "user").map
    fun m => m.content
  userMessages.getLast?.getD ""

/-- `shouldContinueWorkflow(functionResults, conversationHistory)`: decides
whether the orchestration loop starts a follow-up round.  Translated from
the source: take the last function result; find the first workflow entry
whose `first` matches; if none, stop; if its `next` is non-null, continue;
otherwise consult the user-text cues. -/
def shouldContinueWorkflow (functionResults : List NamedResult)
    (conversationHistory : List Msg) : Bool :=
  match functionResults.getLast? with
  | none => false
  | some lastFunctionCall =>
    match multiStepWorkflows.find? fun w => w.1 == lastFunctionCall.name with
    | none => false
    | some matchingWorkflow =>
      match matchingWorkflow.2 with
      | some _ => true
      | none => userTextSuggestsMultiStep (lastUserMessageOf conversationHistory)

/-- The four function names that occur as `first` in `multiStepWorkflows`. -/
def workflowFirstSteps : List String :=
  ["searchChannels", "createChannel", "inviteToChannel", "createChannelAndInviteUsers"]

/-! ## Message formatter (src/ai/openrouter/formatter.ts) -/

/-- `MAX_CONVERSATION_MESSAGES` as configured in
`src/ai/openrouter/formatter.ts`: `0`, with the comment "No history to
minimize token usage". -/
def MAX_CONVERSATION_MESSAGES : Nat := 0

/-- `MAX_CONVERSATION_MESSAGES` in the variant copy of the formatter
(`src/unnamed/part_001`): `20`. -/
def MAX_CONVERSATION_MESSAGES_variant : Nat := 20

/-- JS `s.startsWith(p)`. -/
def jsStartsWith (s p : String) : Bool :=
  p.data.isPrefixOf s.data

/-- JavaScript `xs.slice(-n)` for a natural `n`.  JS converts the argument
with `ToIntegerOrInfinity`, under which `-0` is `0`, so `slice(-0)` is
`slice(0)` and returns the whole array; for `n > 0` it returns the last
`min n xs.length` elements. -/
def jsSliceNeg (n : Nat) (xs : List Msg) : List Msg :=
  if n = 0 then xs else xs.drop (xs.length - n)

/-- `formatForAnthropic`'s loop: `acc` is the `formattedMessages` array in
reverse (its head is the most recently pushed message, which the source
reads as `formattedMessages[formattedMessages.length - 1]`).  A message with
the same role as the previous one is merged by
`prevMessage.content += "\n\n" + currentMessage.content`; otherwise a copy
is pushed. -/
def formatForAnthropicAux : List Msg → List Msg → List Msg
  | acc, [] => acc.reverse
  | [], m :: rest => formatForAnthropicAux [m] rest
  | prev :: accTail, m :: rest =>
    if prev.role == m.role then
      formatForAnthropicAux
        ({ prev with content := prev.content ++ "\n\n" ++ m.content } :: accTail) rest
    else
      formatForAnthropicAux (m :: prev :: accTail) rest

/-- `formatForAnthropic(messages)`: merge consecutive same-role messages so
that no two adjacent messages share a role. -/
def formatForAnthropic (messages : List Msg) : List Msg :=
  formatForAnthropicAux [] messages

/-- `formatForGoogle(messages)`: rewrite system messages as user messages
wrapped in a `<system>` delimiter. -/
def formatForGoogle (messages : List Msg) : List Msg :=
  messages.map fun message =>
    if message.role == "system" then
      { role := "user"
      , content := "<system>\n" ++ message.content ++ "\n</system>"
      , name := message.name
      , timestamp := message.timestamp }
    else message

/-- `formatConversationHistory(messages, modelId)` with the
`MAX_CONVERSATION_MESSAGES = 0` of `src/ai/openrouter/formatter.ts`.  (The
source wraps the body in a `try` that only reflows a thrown error; nothing
in the body can throw.) -/
def formatConversationHistory (messages : List Msg) (modelId : String) : List Msg :=
  let limitedMessages := jsSliceNeg MAX_CONVERSATION_MESSAGES messages
  if jsStartsWith modelId "anthropic/" then formatForAnthropic limitedMessages
  else if jsStartsWith modelId "google/" then formatForGoogle limitedMessages
  else limitedMessages

/-- The `src/unnamed/part_001` variant of `formatConversationHistory`,
identical except for `MAX_CONVERSATION_MESSAGES = 20`. -/
def formatConversationHistoryVariant (messages : List Msg) (modelId : String) : List Msg :=
  let limitedMessages := jsSliceNeg MAX_CONVERSATION_MESSAGES_variant messages
  if jsStartsWith modelId "anthropic/" then formatForAnthropic limitedMessages
  else if jsStartsWith modelId "google/" then formatForGoogle limitedMessages
  else limitedMessages

/-- Specification-side reference function for the strict-alternation merge
(§4.2 of the spec): "merge consecutive same-role messages by concatenating
their text content with a blank-line separator, preserving the role …
timestamp of the merged message is the earlier one's".  Written as a direct
structural recursion so its properties are evident; the theorem below
identifies it with the source's `formatForAnthropic`. -/
def specMergeConsecutiveRoles : List Msg → List Msg
  | [] => []
  | m :: rest =>
    match specMergeConsecutiveRoles rest with
    | [] => [m]
    | m' :: merged =>
      if m.role == m'.role then
        { m with content := m.content ++ "\n\n" ++ m'.content } :: merged
      else m :: m' :: merged

/-- Total character count of the `content` fields of a message list. -/
def sumContentLength (messages : List Msg) : Nat :=
  (messages.map fun m => m.content.length).sum

/-! ## `convertMarkdownToSlackFormatting` (src/ai/openrouter/formatter.ts)

The seven chained `String.prototype.replace` calls, implemented as scanners
over character lists with JS regex semantics: global leftmost matching, `.`
not matching a line terminator, one-character advance on a failed match
attempt.  Each scanner mirrors one regex of the source. -/

/-- Characters the JS regex `.` does not match (line terminators; the
source strings never contain U+2028/U+2029). -/
def isLineTerminator (c : Char) : Prop := c = '\n' ∨ c = '\r'

instance (c : Char) : Decidable (isLineTerminator c) := by
  unfold isLineTerminator; infer_instance

/-- For `/dd(.*?)dd/`: the lazy search for the closing double delimiter,
returning the content length.  Scanning stops at a line terminator, since
`.` cannot match one. -/
def findDoubleClose (d : Char) : List Char → Option Nat
  | c1 :: c2 :: rest =>
    if c1 = d ∧ c2 = d then some 0
    else if isLineTerminator c1 then none
    else (findDoubleClose d (c2 :: rest)).map (· + 1)
  | _ => none

/-- The scan of `replaceDouble`, structurally recursive on a fuel that the
wrapper sets to the input length (every step consumes at least one
character, so the fuel never runs out). -/
def replaceDoubleGo (d : Char) : Nat → List Char → List Char
  | _, [] => []
  | _, [c] => [c]
  | 0, l => l
  | fuel + 1, c1 :: c2 :: rest =>
    if c1 = d ∧ c2 = d then
      match findDoubleClose d rest with
      | some n => d :: rest.take n ++ d :: replaceDoubleGo d fuel (rest.drop (n + 2))
      | none => c1 :: replaceDoubleGo d fuel (c2 :: rest)
    else c1 :: replaceDoubleGo d fuel (c2 :: rest)

/-- `content.replace(/\*\*(.*?)\*\*/g, '*$1*')` for `d = '*'`, and
`content.replace(/~~(.*?)~~/g, '~$1~')` for `d = '~'`: replace a lazily
matched double-delimited span by the single-delimited span. -/
def replaceDouble (d : Char) (l : List Char) : List Char :=
  replaceDoubleGo d l.length l

/-- For `/(?<!\*)\*(?!\*)(.*?)(?<!\*)\*(?!\*)/`: lazy search for a closing
`*` whose neighbours are not `*`.  `lastStar` tracks whether the previously
scanned character was `*` (the lookbehind). -/
def findItalicClose : Bool → List Char → Option Nat
  | _, [] => none
  | lastStar, c :: rest =>
    if isLineTerminator c then none
    else if c = '*' ∧ ¬lastStar ∧ rest.head? ≠ some '*' then some 0
    else (findItalicClose (c = '*') rest).map (· + 1)

/-- `content.replace(/(?<!\*)\*(?!\*)(.*?)(?<!\*)\*(?!\*)/g, '_$1_')`:
rewrite a single-asterisk span (not adjacent to other asterisks) to
underscores.  `prev` is the character before the scan position (the
lookbehind context).  The initial `lastStar` of the close search is `true`
because the character before the content is the opening `*`. -/
def replaceItalicGo : Nat → Option Char → List Char → List Char
  | _, _, [] => []
  | 0, _, l => l
  | fuel + 1, prev, c :: rest =>
    if c = '*' ∧ prev ≠ some '*' ∧ rest.head? ≠ some '*' then
      match findItalicClose true rest with
      | some n =>
        '_' :: rest.take n ++ '_' :: replaceItalicGo fuel (some '*') (rest.drop (n + 1))
      | none => c :: replaceItalicGo fuel (some c) rest
    else c :: replaceItalicGo fuel (some c) rest

/-- Wrapper supplying the fuel (the input length bounds the number of scan
steps). -/
def replaceItalic (prev : Option Char) (l : List Char) : List Char :=
  replaceItalicGo l.length prev l

/-- Index of the first occurrence of `stop`. -/
def findCharIdx (stop : Char) : List Char → Option Nat
  | [] => none
  | c :: rest => if c = stop then some 0 else (findCharIdx stop rest).map (· + 1)

/-- `content.replace(/\[([^\]]+)\]\(([^)]+)\)/g, '<$2|$1>')`: Markdown
links to Slack links.  `[^\]]+` is everything up to the first `]` (at least
one character), `[^)]+` everything up to the first `)`. -/
def replaceLinksGo : Nat → List Char → List Char
  | _, [] => []
  | 0, l => l
  | fuel + 1, c :: rest =>
    if c = '[' then
      match findCharIdx ']' rest with
      | some i =>
        if i = 0 then c :: replaceLinksGo fuel rest
        else
          match (rest.drop (i + 1)).head? with
          | some '(' =>
            match findCharIdx ')' (rest.drop (i + 2)) with
            | some j =>
              if j = 0 then c :: replaceLinksGo fuel rest
              else
                '<' :: (rest.drop (i + 2)).take j ++ '|' :: rest.take i ++ '>' ::
                  replaceLinksGo fuel (rest.drop (i + 2 + j + 1))
            | none => c :: replaceLinksGo fuel rest
          | _ => c :: replaceLinksGo fuel rest
      | none => c :: replaceLinksGo fuel rest
    else c :: replaceLinksGo fuel rest

/-- Wrapper supplying the fuel. -/
def replaceLinks (l : List Char) : List Char :=
  replaceLinksGo l.length l

/-- Space or tab, the `[ \t]` class of the bullet regex. -/
def isSpaceTab (c : Char) : Prop := c = ' ' ∨ c = '\t'

instance (c : Char) : Decidable (isSpaceTab c) := by
  unfold isSpaceTab; infer_instance

/-- `content.replace(/^[ \t]*[-*][ \t]+/gm, '• ')`: a line-start run of
blanks, a `-` or `*`, and at least one blank become a bullet.  `atStart`
says whether the scan position is the start of the string or just after a
line terminator (the multiline `^`). -/
def bulletsGo : Nat → Bool → List Char → List Char
  | _, _, [] => []
  | 0, _, l => l
  | fuel + 1, atStart, c :: rest =>
    if atStart then
      let l := c :: rest
      let w := l.takeWhile fun x => decide (isSpaceTab x)
      match (l.drop w.length).head? with
      | some b =>
        if b = '-' ∨ b = '*' then
          let s := (l.drop (w.length + 1)).takeWhile fun x => decide (isSpaceTab x)
          if s.isEmpty then c :: bulletsGo fuel (decide (isLineTerminator c)) rest
          else '•' :: ' ' :: bulletsGo fuel false (l.drop (w.length + 1 + s.length))
        else c :: bulletsGo fuel (decide (isLineTerminator c)) rest
      | none => c :: bulletsGo fuel (decide (isLineTerminator c)) rest
    else c :: bulletsGo fuel (decide (isLineTerminator c)) rest

/-- Wrapper supplying the fuel. -/
def replaceBullets (l : List Char) : List Char :=
  bulletsGo l.length true l

/-- `content.replace(/```([^`]*?)```/gs, '```$1```')`: the replacement text
is identical to the matched text, so this `replace` is the identity. -/
def replaceCodeBlocks (l : List Char) : List Char := l

/-- The JS `\s` class (ASCII part; the inputs at issue contain no Unicode
spaces). -/
def isJsWhitespace (c : Char) : Prop :=
  c = ' ' ∨ c = '\t' ∨ c = '\n' ∨ c = '\r' ∨ c = '\x0b' ∨ c = '\x0c'

instance (c : Char) : Decidable (isJsWhitespace c) := by
  unfold isJsWhitespace; infer_instance

/-- `content.replace(/^>\s*(.*?)$/gm, '>$1')`: at a line start, `>` plus
any whitespace run (which, via `\s`, may span line terminators) plus the
remainder of the line where the run ends, replaced by `>` plus that
remainder. -/
def quotesGo : Nat → Bool → List Char → List Char
  | _, _, [] => []
  | 0, _, l => l
  | fuel + 1, atStart, c :: rest =>
    if atStart ∧ c = '>' then
      let w := rest.takeWhile fun x => decide (isJsWhitespace x)
      let content := (rest.drop w.length).takeWhile fun x => ¬decide (isLineTerminator x)
      '>' :: content ++ quotesGo fuel false (rest.drop (w.length + content.length))
    else c :: quotesGo fuel (decide (isLineTerminator c)) rest

/-- Wrapper supplying the fuel. -/
def replaceQuotes (l : List Char) : List Char :=
  quotesGo l.length true l

/-- `convertMarkdownToSlackFormatting(content)`: the chain of seven
`replace` calls of the source, in source order (bold, italic, links,
bullets, code blocks, blockquotes, strikethrough), after the
`if (!content) return content` guard. -/
def convertMarkdownToSlackFormatting (content : String) : String :=
  if content = "" then content
  else
    let s1 := replaceDouble '*' content.data
    let s2 := replaceItalic none s1
    let s3 := replaceLinks s2
    let s4 := replaceBullets s3
    let s5 := replaceCodeBlocks s4
    let s6 := replaceQuotes s5
    let s7 := replaceDouble '~' s6
    String.mk s7

/-! ## Function registry & dispatcher (src/mcp/slack-functions.ts,
src/ai/actions/slack-actions.ts) -/

/-- JS property read `j[k]` on an object: `none` models `undefined`. -/
def jGet (j : JValue) (k : String) : Option JValue :=
  match j with
  | JValue.obj fields => (fields.find? fun f => f.1 == k).map fun f => f.2
  | _ => none

/-- JS property read defaulted: a missing property (`undefined`) is carried
as `null` where it flows into a result object. -/
def jGetD (j : JValue) (k : String) : JValue :=
  (jGet j k).getD JValue.null

/-- Project the string stored under `k`, if any. -/
def jGetStr (j : JValue) (k : String) : Option String :=
  match jGet j k with
  | some (JValue.str s) => some s
  | _ => none

/-- `{success: false, error: e}`. -/
def failObj (e : String) : JValue :=
  JValue.obj [("success", JValue.bool false), ("error", JValue.str e)]

/-- The names exported by `src/ai/actions/slack-actions.ts`, which is the
module object the dispatcher indexes (`(slackActions as any)[name]`), in
declaration order. -/
def slackActionNames : List String :=
  [ "createChannel", "inviteToChannel", "archiveChannel", "sendMessage"
  , "sendDirectMessage", "uploadFile", "addReaction", "addReminder"
  , "listUsers", "getUserInfo", "lookupUserByEmail", "adminInviteUsersToChannel"
  , "inviteUserToWorkspace", "assignUserToWorkspace", "searchChannels"
  , "adminArchiveChannel", "unarchiveChannel", "searchMessages", "addBookmark"
  , "listBookmarks", "sendEphemeralMessage", "scheduleMessage"
  , "getMessagePermalink", "getChannelMembers", "createChannelAndInviteUsers"
  , "sendMessageToMultipleChannels" ]

/-- The external Slack Web API, as seen through the feature classes: the
raw outcome of `features.messages.sendMessage` (which the `sendMessage`
action consumes field by field), and the already-normalized results of the
remaining action wrappers, each of which is a `try`/`catch` shell around one
feature call and returns a plain success/failure object without throwing. -/
structure SlackApi where
  messagesSendMessage : JValue → JValue → Option JValue → Except String JValue
  otherAction : String → List JValue → JValue

/-- The `sendMessage` action of `src/ai/actions/slack-actions.ts`, with JS
positional binding: `channelId` is the first positional argument, `text`
the second, `threadTs` the third.  On feature success it returns
`{success, channelId, messageTs: result.ts, message}`; a thrown error is
caught and becomes `{success: false, error}`. -/
def sendMessageAction (api : SlackApi) (args : List JValue) : JValue :=
  let channelId := args.getD 0 JValue.null
  let text := args.getD 1 JValue.null
  let threadTs := args.get? 2
  match api.messagesSendMessage channelId text threadTs with
  | Except.ok result =>
    JValue.obj
      [ ("success", JValue.bool true)
      , ("channelId", channelId)
      , ("messageTs", jGetD result "ts")
      , ("message", JValue.str "Successfully sent message to channel") ]
  | Except.error e => failObj e

/-- Invocation of a registered action with the positional argument list.
`sendMessage` (the one action whose result the theorems inspect) is
translated in full; the other 25 wrappers are mechanical `try`/`catch`
shells around one external call each and are represented by the
`otherAction` component of the API oracle. -/
def runSlackAction (api : SlackApi) (name : String) (args : List JValue) : JValue :=
  if name = "sendMessage" then sendMessageAction api args
  else api.otherAction name args

/-- `handleSlackFunctionCall(functionCall)`: look the name up in the
`slackActions` module object; if it is not a function there, `throw new
Error("Unknown Slack function: " + name)`, which the surrounding `catch`
converts to `{success: false, error}`; otherwise spread
`Object.values(functionCall.arguments)` — the values in key insertion
order — positionally into the handler.  The `catch` also covers handler
rejections, but every action wrapper catches its own errors, so the
invocation itself is total. -/
def handleSlackFunctionCall (api : SlackApi) (call : FunctionCall) : JValue :=
  if slackActionNames.contains call.name then
    runSlackAction api call.name (call.arguments.map fun a => a.2)
  else failObj ("Unknown Slack function: " ++ call.name)

/-- A concrete API oracle: `sendMessage` always succeeds with a fixed
timestamp, every other action returns an empty object. -/
def trivialSlackApi : SlackApi where
  messagesSendMessage := fun _ _ _ => Except.ok (JValue.obj [("ts", JValue.str "111.222")])
  otherAction := fun _ _ => JValue.obj []

/-! ## `JSON.stringify` / `JSON.parse` (for the reply synthesis)

`formatFunctionCallResult` serializes a result with `JSON.stringify`, and
`processMessageAndGenerateResponse` re-parses that text with `JSON.parse`
after a regex match; both builtins are modelled here. -/

/-- JSON string-character escaping (the escapes `JSON.stringify` emits for
the characters that can occur in the values at issue). -/
def jsonEscapeChar (c : Char) : List Char :=
  if c = '"' then ['\\', '"']
  else if c = '\\' then ['\\', '\\']
  else if c = '\n' then ['\\', 'n']
  else if c = '\r' then ['\\', 'r']
  else if c = '\t' then ['\\', 't']
  else [c]

/-- A JSON string literal. -/
def jsonQuote (s : String) : String :=
  "\"" ++ String.mk (s.data.flatMap jsonEscapeChar) ++ "\""

mutual
/-- `JSON.stringify`, without whitespace, fields in insertion order —
exactly what V8 produces for these values. -/
def jsonStringify : JValue → String
  | JValue.str s => jsonQuote s
  | JValue.bool b => if b then "true" else "false"
  | JValue.num n => toString n
  | JValue.null => "null"
  | JValue.arr elems => "[" ++ jsonStringifyArr elems ++ "]"
  | JValue.obj fields => "\x7b" ++ jsonStringifyObj fields ++ "\x7d"
def jsonStringifyArr : List JValue → String
  | [] => ""
  | [v] => jsonStringify v
  | v :: rest => jsonStringify v ++ "," ++ jsonStringifyArr rest
def jsonStringifyObj : List (String × JValue) → String
  | [] => ""
  | [f] => jsonQuote f.1 ++ ":" ++ jsonStringify f.2
  | f :: rest => jsonQuote f.1 ++ ":" ++ jsonStringify f.2 ++ "," ++ jsonStringifyObj rest
end

/-! ## Orchestration loop (src/slack/events/index.ts, src/api/handler.ts)

`handleFunctionCall` and `formatFunctionCallResult` live in
`src/mcp/function-calling.ts`, which is not among the sources; dispatch is
therefore a parameter (`FunctionCall → Except String JValue`, an `error`
modelling a rejected promise), and the result formatter is modelled from
the spec and from the exact regex its caller uses to re-parse it. -/

/-- Thread provenance (`ThreadInfo` of `src/slack/utils/conversation.ts`). -/
structure ThreadInfo where
  channelId : String
  threadTs : String
  userId : String

instance : Inhabited ThreadInfo := ⟨⟨"", "", ""⟩⟩

/-- Modelled from the spec: `formatFunctionCallResult(name, result)` of the
absent `src/mcp/function-calling.ts`.  §4.4 has the loop extract "each
result's human-readable `message` field" from formatted results, and the
caller `processMessageAndGenerateResponse` recovers `(name, result)` from
the formatted string with `result.match(/Function (\w+) result: (.*)/s)`
followed by `JSON.parse(match[2])`, which fixes the shape
`Function <name> result: <JSON.stringify(result)>`. -/
def formatFunctionCallResult (name : String) (result : JValue) : String :=
  "Function " ++ name ++ " result: " ++ jsonStringify result

/-- The dispatch loop of `processFunctionCalls` (lines 256-274): one
`try`/`catch` per call; a successful dispatch pushes the formatted result
onto `results` and `{name, result}` onto `functionResults`; a throwing
dispatch pushes an `Error executing function …` line onto `results` only.
Either way the loop continues with the next call. -/
def dispatchLoop (dispatch : FunctionCall → Except String JValue) :
    List FunctionCall → List String × List NamedResult
  | [] => ([], [])
  | c :: cs =>
    let rest := dispatchLoop dispatch cs
    match dispatch c with
    | Except.ok r => (formatFunctionCallResult c.name r :: rest.1, ⟨c.name, r⟩ :: rest.2)
    | Except.error e =>
      (("Error executing function " ++ c.name ++ ": " ++ e) :: rest.1, rest.2)

/-- `{ content: '', functionCalls: [] }` — what `generateFollowUpResponse`
returns from its `catch`. -/
def emptyModelResponse : ModelResponse := ⟨"", []⟩

/-- `generateFollowUpResponse` (lines 402-576), applied to the outcome of
its provider call `aiClient.generateResponse(prompt, updatedHistory,
relevantFunctions.slice(0, 3))`: a successful call returns the model
response; a failed call is caught and becomes `{content: '', functionCalls:
[]}`.  `none` stands for a provider that yields no outcome, which the
`catch` treats the same way.  (The prompt text, continuation system message
and narrowed function subset shape only the external request and are not
re-read by the loop, so they are not reproduced here.) -/
def generateFollowUpResponse (outcome : Option (Except String ModelResponse)) :
    ModelResponse :=
  match outcome with
  | some (Except.ok r) => r
  | some (Except.error _) => emptyModelResponse
  | none => emptyModelResponse

/-- The `{role: 'assistant', content: JSON.stringify(functionResults)}`
message appended to the conversation history before recursing. -/
def functionResultsMsg (functionResults : List NamedResult) : Msg :=
  { role := "assistant"
  , content := jsonStringify (JValue.arr (functionResults.map fun fr =>
      JValue.obj [("name", JValue.str fr.name), ("result", fr.result)])) }

/-- `processFunctionCalls(functionCalls, threadInfo?, conversationHistory?)`
(lines 248-306).  `followUps` is the provider oracle: the outcome of each
follow-up `generateFollowUpResponse` provider call in order, so the
recursion is over the sequence of model responses.  Returns the `results`
string list and, as the second component, the number of recursive follow-up
rounds taken (an observation on the embedding; the source has no such
counter, and no depth bound).  The `try` around the continuation block
never fires: the predicate and `generateFollowUpResponse` cannot throw. -/
def processFunctionCalls (dispatch : FunctionCall → Except String JValue) :
    List (Except String ModelResponse) → List FunctionCall → Option ThreadInfo →
      Option (List Msg) → List String × Nat
  | followUps, functionCalls, threadInfo, conversationHistory =>
    let round := dispatchLoop dispatch functionCalls
    let results := round.1
    let functionResults := round.2
    match threadInfo, conversationHistory with
    | some ti, some hist =>
      if functionResults.length > 0 then
        if shouldContinueWorkflow functionResults hist then
          match followUps with
          | [] => (results, 0)
          | o :: followUps' =>
            let followUpResponse := generateFollowUpResponse (some o)
            if followUpResponse.functionCalls.isEmpty then (results, 0)
            else
              let rec' := processFunctionCalls dispatch followUps'
                followUpResponse.functionCalls (some ti)
                (some (hist ++ [functionResultsMsg functionResults]))
              (results ++ rec'.1, rec'.2 + 1)
        else (results, 0)
      else (results, 0)
    | _, _ => (results, 0)

/-- The api handler loop of `processMessageAndGenerateApiResponse`
(src/api/handler.ts lines 238-265): one entry `{functionName, result}` per
call, a thrown dispatch caught and recorded as `{success: false, error}`,
the loop always continuing. -/
structure ApiFunctionResult where
  functionName : String
  result : JValue

/-- The `for (const functionCall of aiResponse.functionCalls)` loop of the
API handler. -/
def processApiFunctionCalls (dispatch : FunctionCall → Except String JValue) :
    List FunctionCall → List ApiFunctionResult
  | [] => []
  | c :: cs =>
    (match dispatch c with
      | Except.ok r => ApiFunctionResult.mk c.name r
      | Except.error e => ApiFunctionResult.mk c.name (failObj e)) ::
      processApiFunctionCalls dispatch cs

/-! ### Reply synthesis of `processMessageAndGenerateResponse`

The success branch re-parses each formatted result line with
`result.match(/Function (\w+) result: (.*)/s)` and `JSON.parse(match[2])`;
the regex engine and `JSON.parse` are modelled below. -/

/-- Strip an expected literal prefix. -/
def dropLit : List Char → List Char → Option (List Char)
  | [], l => some l
  | _ :: _, [] => none
  | p :: ps, c :: cs => if c = p then dropLit ps cs else none

/-- The `\w` class: ASCII letters, digits, underscore. -/
def isWordChar (c : Char) : Bool :=
  c.isAlpha || c.isDigit || c = '_'

/-- One anchored attempt of `/Function (\w+) result: (.*)/s`: the literal
`Function `, a maximal non-empty word run (`\w+` is greedy, and since the
following literal starts with a space — not a word character — no shorter
run can match), the literal ` result: `, then `(.*)` with the `s` flag
takes everything to the end of the string. -/
def fnMatchAt (l : List Char) : Option (List Char × List Char) :=
  match dropLit "Function ".data l with
  | none => none
  | some r1 =>
    let w := r1.takeWhile isWordChar
    if w.isEmpty then none
    else
      match dropLit " result: ".data (r1.drop w.length) with
      | none => none
      | some r2 => some (w, r2)

/-- The regex search: try each start position left to right. -/
def fnSearch : List Char → Option (List Char × List Char)
  | [] => none
  | c :: rest =>
    match fnMatchAt (c :: rest) with
    | some r => some r
    | none => fnSearch rest

/-- `line.match(/Function (\w+) result: (.*)/s)`, returning the two capture
groups. -/
def fnLineMatch (line : String) : Option (String × String) :=
  (fnSearch line.data).map fun p => (String.mk p.1, String.mk p.2)

/-- Undo a JSON string escape character. -/
def jsonUnescape (e : Char) : Char :=
  if e = 'n' then '\n' else if e = 't' then '\t' else if e = 'r' then '\r' else e

/-- Parse a JSON string body up to the closing quote. -/
def jsonParseStringBody : List Char → Option (List Char × List Char)
  | [] => none
  | '"' :: rest => some ([], rest)
  | '\\' :: e :: rest =>
    (jsonParseStringBody rest).map fun p => (jsonUnescape e :: p.1, p.2)
  | ['\\'] => none
  | c :: rest => (jsonParseStringBody rest).map fun p => (c :: p.1, p.2)

/-- Digits of a JSON integer. -/
def natFromDigits (ds : List Char) : Nat :=
  ds.foldl (fun n c => n * 10 + (c.toNat - 48)) 0

/-- Parse a JSON integer (`JSON.stringify` of the values here never emits
fractions or exponents). -/
def jsonParseNumber (l : List Char) : Option (Int × List Char) :=
  match l with
  | '-' :: rest =>
    let ds := rest.takeWhile Char.isDigit
    if ds.isEmpty then none
    else some (-(natFromDigits ds : Int), rest.drop ds.length)
  | _ =>
    let ds := l.takeWhile Char.isDigit
    if ds.isEmpty then none
    else some ((natFromDigits ds : Int), l.drop ds.length)

mutual
/-- `JSON.parse`, restricted to the whitespace-free grammar
`JSON.stringify` emits (which is all the reply synthesis ever feeds it).
The fuel bounds nesting and list length; the wrapper supplies the input
length, which suffices because every recursive call consumes input. -/
def jsonParseValue : Nat → List Char → Option (JValue × List Char)
  | 0, _ => none
  | fuel + 1, l =>
    match l with
    | [] => none
    | c :: rest =>
      if c = '"' then
        (jsonParseStringBody rest).map fun p => (JValue.str (String.mk p.1), p.2)
      else if c = 't' then (dropLit "rue".data rest).map fun r => (JValue.bool true, r)
      else if c = 'f' then (dropLit "alse".data rest).map fun r => (JValue.bool false, r)
      else if c = 'n' then (dropLit "ull".data rest).map fun r => (JValue.null, r)
      else if c = '[' then
        if rest.head? = some ']' then some (JValue.arr [], rest.tail)
        else (jsonParseElems fuel rest).map fun p => (JValue.arr p.1, p.2)
      else if c = '\x7b' then
        if rest.head? = some '\x7d' then some (JValue.obj [], rest.tail)
        else (jsonParseFields fuel rest).map fun p => (JValue.obj p.1, p.2)
      else if c = '-' ∨ c.isDigit then
        (jsonParseNumber (c :: rest)).map fun p => (JValue.num p.1, p.2)
      else none
/-- Comma-separated array elements, then `]`. -/
def jsonParseElems : Nat → List Char → Option (List JValue × List Char)
  | 0, _ => none
  | fuel + 1, l =>
    match jsonParseValue fuel l with
    | none => none
    | some (v, r) =>
      match r with
      | ',' :: r2 => (jsonParseElems fuel r2).map fun p => (v :: p.1, p.2)
      | ']' :: r2 => some ([v], r2)
      | _ => none
/-- Comma-separated `"key":value` fields, then the closing brace. -/
def jsonParseFields : Nat → List Char → Option (List (String × JValue) × List Char)
  | 0, _ => none
  | fuel + 1, l =>
    match l with
    | [] => none
    | c :: rest =>
      if c = '"' then
        match jsonParseStringBody rest with
        | none => none
        | some (k, r1) =>
          match r1 with
          | ':' :: r2 =>
            match jsonParseValue fuel r2 with
            | none => none
            | some (v, r3) =>
              match r3 with
              | ',' :: r4 =>
                (jsonParseFields fuel r4).map fun p => ((String.mk k, v) :: p.1, p.2)
              | d :: r4 => if d = '\x7d' then some ([(String.mk k, v)], r4) else none
              | [] => none
          | _ => none
      else none
end

/-- `JSON.parse(s)`: a full parse of the string; anything else throws,
modelled as `none`. -/
def jsonParse (s : String) : Option JValue :=
  match jsonParseValue (s.length + 1) s.data with
  | some (v, []) => some v
  | _ => none

/-- JS truthiness of a value. -/
def jTruthy : JValue → Bool
  | JValue.str s => s ≠ ""
  | JValue.bool b => b
  | JValue.num n => n ≠ 0
  | JValue.null => false
  | JValue.arr _ => true
  | JValue.obj _ => true

/-- The value interpolated into the reply text.  The handlers only ever put
strings there; for other values (unreachable under the theorems below) JS
string conversion is approximated by the JSON text. -/
def jsDisplay : JValue → String
  | JValue.str s => s
  | v => jsonStringify v

/-- The `successMessages` map callback (lines 182-197): regex-match the
formatted line; on a match, `JSON.parse` the captured JSON (a parse failure
throws out of the whole `map`, hence `Except`); return `functionResult.
message` when truthy, the generic completion sentence when
`functionResult.success` is truthy, `null` otherwise. -/
def extractSuccessMessage (line : String) : Except String (Option String) :=
  match fnLineMatch line with
  | none => Except.ok none
  | some (functionName, jsonText) =>
    match jsonParse jsonText with
    | none => Except.error "Unexpected token in JSON"
    | some functionResult =>
      if jTruthy (jGetD functionResult "message") then
        Except.ok (some (jsDisplay (jGetD functionResult "message")))
      else if jTruthy (jGetD functionResult "success") then
        Except.ok (some ("I've successfully completed the " ++ functionName ++ " action."))
      else Except.ok none

/-- `.map(...).filter(Boolean)` over the result lines, with a thrown parse
error propagating. -/
def collectSuccessMessages : List String → Except String (List String)
  | [] => Except.ok []
  | r :: rest =>
    match extractSuccessMessage r with
    | Except.error e => Except.error e
    | Except.ok none => collectSuccessMessages rest
    | Except.ok (some m) =>
      match collectSuccessMessages rest with
      | Except.error e => Except.error e
      | Except.ok ms => Except.ok (m :: ms)

/-- JS `String.prototype.trim` (ASCII whitespace suffices here). -/
def jsTrim (s : String) : String := s.trim

/-- What the handler hands to the user-facing updaters: the normal path
`updateThinkingMessageWithAIResponse(app, threadInfo, ts, finalResponse,
metadata, shownFunctionResults)`, or the outer-catch path
`sendErrorMessage(app, threadInfo, title, body, details)`. -/
inductive Reply where
  | normal (text : String) (functionResults : List String)
  | errorMessage (title body details : String)

/-- `processMessageAndGenerateResponse` (lines 122-238): first provider
call, dispatch of any function calls, reply synthesis, with the outer
`try`/`catch` turning any escaped throw into the error message.
`providerFirst` is the outcome of the first `aiClient.generateResponse`;
`followUps` the oracle for the follow-up rounds; `systemMessage?` the
system message found in the thread history (`fullHistory.find(msg =>
msg.role === 'system')`). -/
def processMessageAndGenerateResponse (dispatch : FunctionCall → Except String JValue)
    (providerFirst : Except String ModelResponse)
    (followUps : List (Except String ModelResponse)) (threadInfo : ThreadInfo)
    (systemMessage? : Option Msg) (messageText : String) : Reply :=
  match providerFirst with
  | Except.error e =>
    Reply.errorMessage "Error Generating Response"
      "There was an error generating a response. Please try again later." e
  | Except.ok aiResponse =>
    if aiResponse.functionCalls.isEmpty then Reply.normal aiResponse.content []
    else
      let minimalHistory := systemMessage?.toList ++ [{ role := "user", content := messageText }]
      let functionResults :=
        (processFunctionCalls dispatch followUps aiResponse.functionCalls
          (some threadInfo) (some minimalHistory)).1
      if functionResults.length > 0 then
        if functionResults.all fun r => !strIncludes r "Error executing function" then
          match collectSuccessMessages functionResults with
          | Except.error e =>
            Reply.errorMessage "Error Generating Response"
              "There was an error generating a response. Please try again later." e
          | Except.ok successMessages =>
            if successMessages.length > 0 then
              let base := String.intercalate "\n\n" successMessages
              let finalResponse :=
                if aiResponse.content ≠ "" ∧ jsTrim aiResponse.content ≠ "" ∧
                    aiResponse.content ≠ "I don't have a response at this time." then
                  base ++ "\n\n" ++ aiResponse.content
                else base
              Reply.normal finalResponse functionResults
            else Reply.normal aiResponse.content functionResults
        else Reply.normal aiResponse.content functionResults
      else Reply.normal aiResponse.content functionResults

/-! ### Concrete fixtures for the claim theorems -/

/-- `{success: true, message: m}` — the shape of a successful handler
result as far as the reply synthesis reads it. -/
def okObjMsg (m : String) : JValue :=
  JValue.obj [("success", JValue.bool true), ("message", JValue.str m)]

/-- A dispatch in which every handler succeeds. -/
def alwaysSucceedDispatch : FunctionCall → Except String JValue :=
  fun _ => Except.ok (JValue.obj [("success", JValue.bool true)])

/-- A `searchChannels` call (a known first step of the workflow table). -/
def searchChannelsCall : FunctionCall := ⟨"searchChannels", []⟩

/-- A model response that requests `searchChannels` again — the
pathological always-continue input of the termination claim. -/
def alwaysContinueResponse : ModelResponse := ⟨"", [searchChannelsCall]⟩

/-- A character `JSON.stringify` serializes verbatim (no escape needed). -/
def tameChar (c : Char) : Bool :=
  ¬(c = '"' ∨ c = '\\' ∨ c = '\n' ∨ c = '\r' ∨ c = '\t')

/-- Strings free of JSON-escape-relevant characters: such a string is
serialized verbatim by `JSON.stringify` (every handler message and error
text in the source is of this form). -/
def tameText (s : String) : Bool :=
  s.data.all tameChar

/-- A non-empty `\w+` name — every registered function name qualifies. -/
def wordName (s : String) : Bool :=
  !s.data.isEmpty && s.data.all isWordChar

/-- The result line of one dispatched call, as `processFunctionCalls`
records it: the formatted result on success, the `Error executing function`
line when the dispatch throws. -/
def resultLine (dispatch : FunctionCall → Except String JValue) (c : FunctionCall) : String :=
  match dispatch c with
  | Except.ok r => formatFunctionCallResult c.name r
  | Except.error e => "Error executing function " ++ c.name ++ ": " ++ e

/-- The API-handler record of one dispatched call. -/
def apiEntry (dispatch : FunctionCall → Except String JValue) (c : FunctionCall) :
    ApiFunctionResult :=
  match dispatch c with
  | Except.ok r => ⟨c.name, r⟩
  | Except.error e => ⟨c.name, failObj e⟩

/-- A `sendMessage` call with arguments inserted as `channelId` then
`text`. -/
def sendMessageCallA : FunctionCall :=
  ⟨"sendMessage", [("channelId", JValue.str "C1"), ("text", JValue.str "hello")]⟩

/-- The same key/value pairs inserted in the opposite order. -/
def sendMessageCallB : FunctionCall :=
  ⟨"sendMessage", [("text", JValue.str "hello"), ("channelId", JValue.str "C1")]⟩

/-- Proof-only bridge between the accumulator form of the source loop and
the structural recursion `specMergeConsecutiveRoles`: flush the reversed
accumulator `acc` in front of an already-merged tail `l`, merging at the
single possible boundary. -/
def mergeInto (acc l : List Msg) : List Msg :=
  match acc, l with
  | [], l => l
  | a :: t, [] => (a :: t).reverse
  | a :: t, b :: l' =>
    if a.role == b.role then
      ({ a with content := a.content ++ "\n\n" ++ b.content } :: t).reverse ++ l'
    else (a :: t).reverse ++ (b :: l')

theorem find_multiStepWorkflows (n : String) :
    multiStepWorkflows.find? (fun w => w.1 == n) =
      if n = "searchChannels" then some ("searchChannels", some "sendMessage")
      else if n = "createChannel" then some ("createChannel", some "inviteToChannel")
      else if n = "inviteToChannel" then some ("inviteToChannel", some "sendMessage")
      else if n = "createChannelAndInviteUsers" then
        some ("createChannelAndInviteUsers", some "sendMessage")
      else none := by
  by_cases h1 : n = "searchChannels"
  · subst h1; decide
  by_cases h2 : n = "createChannel"
  · subst h2; decide
  by_cases h3 : n = "inviteToChannel"
  · subst h3; decide
  by_cases h4 : n = "createChannelAndInviteUsers"
  · subst h4; decide
  have e1 : ("searchChannels" == n) = false := beq_eq_false_iff_ne.mpr (Ne.symm h1)
  have e2 : ("createChannel" == n) = false := beq_eq_false_iff_ne.mpr (Ne.symm h2)
  have e3 : ("inviteToChannel" == n) = false := beq_eq_false_iff_ne.mpr (Ne.symm h3)
  have e4 : ("createChannelAndInviteUsers" == n) = false :=
    beq_eq_false_iff_ne.mpr (Ne.symm h4)
  simp [multiStepWorkflows, List.find?, e1, e2, e3, e4, h1, h2, h3, h4]

/-- Every workflow-table hit resolves at an entry with a non-null `next`:
the predicate is equivalent to a membership test of the last dispatched
function name, and the user-text cue analysis is unreachable. -/
theorem shouldContinueWorkflow_eq_memberTest (functionResults : List NamedResult)
    (conversationHistory : List Msg) :
    shouldContinueWorkflow functionResults conversationHistory =
      match functionResults.getLast? with
      | none => false
      | some lastFunctionCall => workflowFirstSteps.contains lastFunctionCall.name := by
  unfold shouldContinueWorkflow
  cases hlast : functionResults.getLast? with
  | none => rfl
  | some lastCall =>
    dsimp only
    rw [find_multiStepWorkflows lastCall.name]
    by_cases h1 : lastCall.name = "searchChannels"
    · rw [h1]; simp [workflowFirstSteps]
    by_cases h2 : lastCall.name = "createChannel"
    · rw [h2]; simp [workflowFirstSteps]
    by_cases h3 : lastCall.name = "inviteToChannel"
    · rw [h3]; simp [workflowFirstSteps]
    by_cases h4 : lastCall.name = "createChannelAndInviteUsers"
    · rw [h4]; simp [workflowFirstSteps]
    rw [if_neg h1, if_neg h2, if_neg h3, if_neg h4]
    have e1 : (lastCall.name == "searchChannels") = false := beq_eq_false_iff_ne.mpr h1
    have e2 : (lastCall.name == "createChannel") = false := beq_eq_false_iff_ne.mpr h2
    have e3 : (lastCall.name == "inviteToChannel") = false := beq_eq_false_iff_ne.mpr h3
    have e4 : (lastCall.name == "createChannelAndInviteUsers") = false :=
      beq_eq_false_iff_ne.mpr h4
    simp only [workflowFirstSteps, List.contains_cons, List.contains_nil, e1, e2, e3, e4,
      Bool.or_false, Bool.false_or]

theorem sumContentLength_nil : sumContentLength [] = 0 := rfl

theorem sumContentLength_cons (m : Msg) (l : List Msg) :
    sumContentLength (m :: l) = m.content.length + sumContentLength l := by
  simp [sumContentLength]

theorem specMergeConsecutiveRoles_ne_nil (m : Msg) (rest : List Msg) :
    specMergeConsecutiveRoles (m :: rest) ≠ [] := by
  unfold specMergeConsecutiveRoles
  cases specMergeConsecutiveRoles rest with
  | nil => simp
  | cons b l' => by_cases h : m.role == b.role <;> simp [h]

theorem formatForAnthropicAux_eq (rest : List Msg) :
    ∀ acc, formatForAnthropicAux acc rest = mergeInto acc (specMergeConsecutiveRoles rest) := by
  induction rest with
  | nil =>
    intro acc
    cases acc <;> simp [formatForAnthropicAux, mergeInto, specMergeConsecutiveRoles]
  | cons m ms ih =>
    intro acc
    cases acc with
    | nil =>
      rw [show formatForAnthropicAux [] (m :: ms) = formatForAnthropicAux [m] ms from rfl,
        ih [m]]
      cases hs : specMergeConsecutiveRoles ms with
      | nil => simp [mergeInto, specMergeConsecutiveRoles, hs]
      | cons b l' =>
        by_cases hr : m.role == b.role <;>
          simp [mergeInto, specMergeConsecutiveRoles, hs, hr]
    | cons prev t =>
      by_cases hr : prev.role == m.role
      · have hstep : formatForAnthropicAux (prev :: t) (m :: ms) =
            formatForAnthropicAux
              ({ prev with content := prev.content ++ "\n\n" ++ m.content } :: t) ms := by
          simp [formatForAnthropicAux, hr]
        rw [hstep, ih]
        have hrr : prev.role = m.role := eq_of_beq hr
        cases hs : specMergeConsecutiveRoles ms with
        | nil =>
          have hnil : ms = [] := by
            cases ms with
            | nil => rfl
            | cons x xs => exact absurd hs (specMergeConsecutiveRoles_ne_nil x xs)
          subst hnil
          simp [mergeInto, specMergeConsecutiveRoles, hr, hrr]
        | cons b l' =>
          by_cases hmb : m.role == b.role
          · have hmbr : m.role = b.role := eq_of_beq hmb
            simp [mergeInto, specMergeConsecutiveRoles, hs, hr, hmb, hrr, hmbr,
              String.append_assoc]
          · simp [mergeInto, specMergeConsecutiveRoles, hs, hr, hmb, hrr]
      · have hstep : formatForAnthropicAux (prev :: t) (m :: ms) =
            formatForAnthropicAux (m :: prev :: t) ms := by
          simp [formatForAnthropicAux, hr]
        rw [hstep, ih]
        have hrr : ¬prev.role = m.role := fun h => hr (beq_iff_eq.mpr h)
        cases hs : specMergeConsecutiveRoles ms with
        | nil =>
          have hnil : ms = [] := by
            cases ms with
            | nil => rfl
            | cons x xs => exact absurd hs (specMergeConsecutiveRoles_ne_nil x xs)
          subst hnil
          simp [mergeInto, specMergeConsecutiveRoles, hr, hrr]
        | cons b l' =>
          by_cases hmb : m.role == b.role <;>
            simp [mergeInto, specMergeConsecutiveRoles, hs, hr, hmb]

/-- The source's `formatForAnthropic` computes exactly the specification
merge. -/
theorem formatForAnthropic_eq_specMerge (messages : List Msg) :
    formatForAnthropic messages = specMergeConsecutiveRoles messages := by
  rw [formatForAnthropic, formatForAnthropicAux_eq]
  rfl

/-- The merged output never has two adjacent messages of the same role. -/
theorem specMerge_chain (messages : List Msg) :
    List.Chain' (fun a b => a.role ≠ b.role) (specMergeConsecutiveRoles messages) := by
  induction messages with
  | nil => simp [specMergeConsecutiveRoles]
  | cons m ms ih =>
    unfold specMergeConsecutiveRoles
    cases hs : specMergeConsecutiveRoles ms with
    | nil => simp
    | cons b l' =>
      rw [hs] at ih
      by_cases hr : m.role == b.role
      · have hrr : m.role = b.role := eq_of_beq hr
        simp only [hr, if_true]
        rw [List.chain'_cons'] at ih ⊢
        refine ⟨fun y hy => ?_, ih.2⟩
        have := ih.1 y hy
        simpa [hrr] using this
      · have hrr : m.role ≠ b.role := fun h => hr (beq_iff_eq.mpr h)
        simp only [hr, if_false]
        exact List.Chain'.cons hrr ih

/-- Character accounting of the merge: each eliminated message costs two
extra separator characters, so `Σ|out| + 2·|out| = Σ|in| + 2·|in|`
(equivalently `Σ|out| = Σ|in| + 2·(number of merges)`). -/
theorem specMerge_count (messages : List Msg) :
    sumContentLength (specMergeConsecutiveRoles messages) +
        2 * (specMergeConsecutiveRoles messages).length =
      sumContentLength messages + 2 * messages.length := by
  induction messages with
  | nil => simp [specMergeConsecutiveRoles]
  | cons m ms ih =>
    unfold specMergeConsecutiveRoles
    cases hs : specMergeConsecutiveRoles ms with
    | nil =>
      have hnil : ms = [] := by
        cases ms with
        | nil => rfl
        | cons x xs => exact absurd hs (specMergeConsecutiveRoles_ne_nil x xs)
      subst hnil
      simp [sumContentLength_cons, sumContentLength_nil]
    | cons b l' =>
      rw [hs] at ih
      by_cases hr : m.role == b.role
      · simp only [hr, if_true]
        simp only [sumContentLength_cons, List.length_cons, String.length_append] at ih ⊢
        have hsep : ("\n\n" : String).length = 2 := rfl
        omega
      · have hf : (m.role == b.role) = false := by
          cases hb : (m.role == b.role) with
          | false => rfl
          | true => exact absurd hb hr
        simp only [hf, Bool.false_eq_true, if_false]
        simp only [sumContentLength_cons, List.length_cons] at ih ⊢
        omega

theorem dispatchLoop_fst (dispatch : FunctionCall → Except String JValue) :
    ∀ calls : List FunctionCall,
      (dispatchLoop dispatch calls).1 = calls.map (resultLine dispatch) := by
  intro calls
  induction calls with
  | nil => rfl
  | cons c cs ih =>
    simp only [dispatchLoop, resultLine, List.map_cons]
    cases h : dispatch c <;> simp [h, ih, resultLine]

theorem dispatchLoop_fst_length (dispatch : FunctionCall → Except String JValue)
    (calls : List FunctionCall) :
    (dispatchLoop dispatch calls).1.length = calls.length := by
  rw [dispatchLoop_fst]; exact List.length_map calls _

theorem processFunctionCalls_prefix (dispatch : FunctionCall → Except String JValue)
    (followUps : List (Except String ModelResponse)) (calls : List FunctionCall)
    (ti : Option ThreadInfo) (hist : Option (List Msg)) :
    ∃ extra, (processFunctionCalls dispatch followUps calls ti hist).1 =
      (dispatchLoop dispatch calls).1 ++ extra := by
  unfold processFunctionCalls
  dsimp only
  split
  · split
    · split
      · split
        · exact ⟨[], (List.append_nil _).symm⟩
        · split
          · exact ⟨[], (List.append_nil _).symm⟩
          · exact ⟨_, rfl⟩
      · exact ⟨[], (List.append_nil _).symm⟩
    · exact ⟨[], (List.append_nil _).symm⟩
  · exact ⟨[], (List.append_nil _).symm⟩

theorem processApiFunctionCalls_eq (dispatch : FunctionCall → Except String JValue) :
    ∀ calls : List FunctionCall,
      processApiFunctionCalls dispatch calls = calls.map (apiEntry dispatch) := by
  intro calls
  induction calls with
  | nil => rfl
  | cons c cs ih =>
    simp only [processApiFunctionCalls, apiEntry, List.map_cons]
    cases h : dispatch c <;> simp [h, ih, apiEntry]

theorem processFunctionCalls_replicate_rounds (n : Nat) :
    ∀ (hist : List Msg) (ti : ThreadInfo),
      (processFunctionCalls alwaysSucceedDispatch
        (List.replicate n (Except.ok alwaysContinueResponse)) [searchChannelsCall]
        (some ti) (some hist)).2 = n := by
  induction n with
  | zero => intro hist ti; rfl
  | succ n ih =>
    intro hist ti
    have hstep : (processFunctionCalls alwaysSucceedDispatch
        (List.replicate (n + 1) (Except.ok alwaysContinueResponse)) [searchChannelsCall]
        (some ti) (some hist)).2 =
      (processFunctionCalls alwaysSucceedDispatch
        (List.replicate n (Except.ok alwaysContinueResponse)) [searchChannelsCall]
        (some ti)
        (some (hist ++ [functionResultsMsg [⟨"searchChannels",
          JValue.obj [("success", JValue.bool true)]⟩]]))).2 + 1 := rfl
    rw [hstep, ih]

/-- C1: the claim asserts the orchestration loop terminates within the
configured follow-up round cap (recommended cap 3) even when the
continuation predicate always answers "continue".  False: with an
always-continue model oracle of four responses, `processFunctionCalls`
recurses four times — beyond the cap. -/
theorem C1_counterexample :
    (processFunctionCalls alwaysSucceedDispatch
      (List.replicate 4 (Except.ok alwaysContinueResponse)) [searchChannelsCall]
      (some default) (some [])).2 = 4 ∧ ¬(4 ≤ 3) :=
  ⟨rfl, by decide⟩

/-- C1 (amended): the code has no depth bound at all.  The recursion of
`processFunctionCalls` into itself consumes one follow-up model response
per round, so for every `n` an always-continue sequence of `n` responses
drives exactly `n` nested follow-up rounds, exceeding any fixed cap;
termination rests solely on the model eventually returning no function
calls, the predicate answering stop, or a provider failure. -/
theorem C1_no_depth_bound (n : Nat) (hist : List Msg) (ti : ThreadInfo) :
    (processFunctionCalls alwaysSucceedDispatch
      (List.replicate n (Except.ok alwaysContinueResponse)) [searchChannelsCall]
      (some ti) (some hist)).2 = n :=
  processFunctionCalls_replicate_rounds n hist ti

/-- C2: the claim asserts the continuation predicate answers "continue"
whenever the last user message contains a task-continuation cue, even if
the last dispatched function is not a known first step.  False: with last
function `sendMessage` and a user text packed with cues (`then`,
`create`+`channel`+`invite`), the predicate answers `false` — the
workflow-table lookup fails first and the cue analysis is never reached. -/
theorem C2_counterexample :
    strIncludes (jsToLower "then create a channel and invite the team") "then" = true ∧
    userTextSuggestsMultiStep "then create a channel and invite the team" = true ∧
    shouldContinueWorkflow [⟨"sendMessage", JValue.null⟩]
      [{ role := "user", content := "then create a channel and invite the team" }] =
      false := by
  refine ⟨by decide, by decide, rfl⟩

/-- C2 (amended): `shouldContinueWorkflow` is exactly a membership test:
it returns `true` iff the most recently dispatched function's name is one
of `searchChannels`, `createChannel`, `inviteToChannel`,
`createChannelAndInviteUsers`.  Every such name hits a workflow entry with
a non-null `next` before any null-`next` entry, so the user-text cue
branch is unreachable and the conversation history is never consulted. -/
theorem C2_member_test (functionResults : List NamedResult)
    (conversationHistory : List Msg) :
    shouldContinueWorkflow functionResults conversationHistory =
      match functionResults.getLast? with
      | none => false
      | some lastFunctionCall => workflowFirstSteps.contains lastFunctionCall.name :=
  shouldContinueWorkflow_eq_memberTest functionResults conversationHistory

/-- C4: the claim asserts dispatch of an unregistered name returns
`{success: false, error: "Unknown function: <name>"}`.  The dispatch does
return a failure object and never throws, but the error string is
`"Unknown Slack function: <name>"`. -/
theorem C4_counterexample :
    handleSlackFunctionCall trivialSlackApi ⟨"frobnicate", []⟩ =
      failObj "Unknown Slack function: frobnicate" ∧
    "Unknown Slack function: frobnicate" ≠ "Unknown function: frobnicate" :=
  ⟨rfl, by decide⟩

/-- C4 (amended): for every `FunctionCall` whose name is not registered in
the `slackActions` module, dispatch never throws and returns
`{success: false, error: "Unknown Slack function: <name>"}`, whose error
string is non-empty. -/
theorem C4_unknown_name (api : SlackApi) (call : FunctionCall)
    (h : slackActionNames.contains call.name = false) :
    handleSlackFunctionCall api call =
      failObj ("Unknown Slack function: " ++ call.name) ∧
    ("Unknown Slack function: " ++ call.name) ≠ "" := by
  constructor
  · simp only [handleSlackFunctionCall, h, Bool.false_eq_true, if_false]
  · intro hEq
    have hlen := congrArg String.length hEq
    rw [String.length_append] at hlen
    have h24 : ("Unknown Slack function: " : String).length = 24 := rfl
    have h0 : ("" : String).length = 0 := rfl
    rw [h24, h0] at hlen
    omega

theorem C4_witness :
    slackActionNames.contains "frobnicate" = false ∧
    (handleSlackFunctionCall trivialSlackApi ⟨"frobnicate", []⟩ =
        failObj ("Unknown Slack function: " ++ "frobnicate") ∧
      ("Unknown Slack function: " ++ "frobnicate") ≠ "") :=
  ⟨rfl, C4_unknown_name trivialSlackApi ⟨"frobnicate", []⟩ rfl⟩

/-- C5: function calls of one model response are dispatched sequentially
in the order the model returned them, and a failing dispatch does not stop
the later calls: in both loops the collected results are exactly the
per-call results, one per call, in call order — in particular the `i`-th
entry depends only on the `i`-th call, so calls after a failure are still
attempted and recorded. -/
theorem C5_dispatch_in_order (dispatch : FunctionCall → Except String JValue)
    (calls : List FunctionCall) (followUps : List (Except String ModelResponse))
    (ti : Option ThreadInfo) (hist : Option (List Msg)) :
    processApiFunctionCalls dispatch calls = calls.map (apiEntry dispatch) ∧
    (dispatchLoop dispatch calls).1 = calls.map (resultLine dispatch) ∧
    (processFunctionCalls dispatch followUps calls ti hist).1.take calls.length =
      calls.map (resultLine dispatch) := by
  refine ⟨processApiFunctionCalls_eq dispatch calls, dispatchLoop_fst dispatch calls, ?_⟩
  obtain ⟨extra, hx⟩ := processFunctionCalls_prefix dispatch followUps calls ti hist
  rw [hx, ← dispatchLoop_fst_length dispatch calls, List.take_left,
    dispatchLoop_fst]

/-- C6: the claim asserts `convertMarkdownToSlackFormatting` is idempotent
and leaves Slack-syntax input (single-asterisk bold) unchanged.  The code
does neither: it rewrites the Slack bold `*bold*` into the italic
`_bold_`, and on `***a***` a second application changes the output again
(`***a***` ↦ `**a**` ↦ `_a_`).  This contradicts the code's own system
prompts, which instruct the model to emit Slack bold with one asterisk —
text the transform then mangles. -/
theorem C6_not_idempotent :
    convertMarkdownToSlackFormatting "*bold*" = "_bold_" ∧
    convertMarkdownToSlackFormatting "*bold*" ≠ "*bold*" ∧
    convertMarkdownToSlackFormatting "***a***" = "**a**" ∧
    convertMarkdownToSlackFormatting (convertMarkdownToSlackFormatting "***a***") = "_a_" ∧
    convertMarkdownToSlackFormatting (convertMarkdownToSlackFormatting "***a***") ≠
      convertMarkdownToSlackFormatting "***a***" :=
  ⟨rfl, by decide, rfl, rfl, by decide⟩

/-- C7: the claim asserts the strict-alternation merge conserves the total
character count of the content fields.  False: merging `"a"` and `"b"`
inserts the blank-line separator, so the output holds 4 characters against
the input's 2. -/
theorem C7_counterexample :
    formatForAnthropic
        [{ role := "user", content := "a" }, { role := "user", content := "b" }] =
      [{ role := "user", content := "a\n\nb" }] ∧
    sumContentLength (formatForAnthropic
        [{ role := "user", content := "a" }, { role := "user", content := "b" }]) ≠
      sumContentLength
        [{ role := "user", content := "a" }, { role := "user", content := "b" }] := by
  refine ⟨rfl, by decide⟩

/-- C7 (amended): the output of `formatForAnthropic` has no two adjacent
same-role messages; it equals the specification merge (consecutive
same-role messages concatenated with a blank-line separator onto the
earlier message, which keeps its role, name and timestamp, relative order
preserved); and the character count grows by exactly two separator
characters per eliminated message:
`Σ|out| + 2·|out| = Σ|in| + 2·|in|`. -/
theorem C7_strict_alternation (messages : List Msg) :
    formatForAnthropic messages = specMergeConsecutiveRoles messages ∧
    List.Chain' (fun a b => a.role ≠ b.role) (formatForAnthropic messages) ∧
    sumContentLength (formatForAnthropic messages) +
        2 * (formatForAnthropic messages).length =
      sumContentLength messages + 2 * messages.length := by
  refine ⟨formatForAnthropic_eq_specMerge messages, ?_, ?_⟩
  · rw [formatForAnthropic_eq_specMerge]; exact specMerge_chain messages
  · rw [formatForAnthropic_eq_specMerge]; exact specMerge_count messages

/-- C8: the claim asserts `formatConversationHistory` keeps only the most
recent `MAX_CONVERSATION_MESSAGES` messages.  The configured constant is
`0` ("No history to minimize token usage"), but `messages.slice(-0)` is
`messages.slice(0)` — the whole array — so the formatter truncates nothing
and returns every message, older ones included, contradicting both the
claim and the constant's own comment. -/
theorem C8_no_truncation :
    MAX_CONVERSATION_MESSAGES = 0 ∧
    (∀ messages : List Msg, jsSliceNeg MAX_CONVERSATION_MESSAGES messages = messages) ∧
    formatConversationHistory
        [{ role := "system", content := "sys" }, { role := "user", content := "old" },
          { role := "user", content := "new" }] "openai/gpt-4-turbo" =
      [{ role := "system", content := "sys" }, { role := "user", content := "old" },
        { role := "user", content := "new" }] := by
  refine ⟨rfl, fun _ => rfl, by decide⟩

/-- C9: the claim asserts a provider failure in any round aborts the round
and surfaces as a single top-level error, never silently becoming an empty
model response.  False for follow-up rounds: `generateFollowUpResponse`
catches the failure and returns `{content: '', functionCalls: []}`, and the
run completes with a normal reply built from the first round alone. -/
theorem C9_counterexample :
    generateFollowUpResponse (some (Except.error "boom")) = emptyModelResponse ∧
    processMessageAndGenerateResponse (fun _ => Except.ok (okObjMsg "done"))
        (Except.ok ⟨"", [searchChannelsCall]⟩) [Except.error "boom"] default none "msg" =
      Reply.normal "done"
        ["Function searchChannels result: \x7b\"success\":true,\"message\":\"done\"\x7d"] :=
  ⟨rfl, rfl⟩

/-- C9 (amended): a provider failure on the first round aborts the run and
surfaces as the single error reply; on a follow-up round the failure is
caught inside `generateFollowUpResponse` and converted to the empty model
response, so the continuation silently stops — the current round's results
stand, no further round runs, and no error surfaces.  In neither case is
the provider call retried. -/
theorem C9_provider_failure (e : String) (dispatch : FunctionCall → Except String JValue)
    (followUps fu' : List (Except String ModelResponse)) (ti : ThreadInfo)
    (sys? : Option Msg) (txt : String) (calls : List FunctionCall)
    (ti' : Option ThreadInfo) (hist : Option (List Msg)) :
    processMessageAndGenerateResponse dispatch (Except.error e) followUps ti sys? txt =
      Reply.errorMessage "Error Generating Response"
        "There was an error generating a response. Please try again later." e ∧
    generateFollowUpResponse (some (Except.error e)) = emptyModelResponse ∧
    processFunctionCalls dispatch (Except.error e :: fu') calls ti' hist =
      ((dispatchLoop dispatch calls).1, 0) := by
  refine ⟨rfl, rfl, ?_⟩
  unfold processFunctionCalls
  dsimp only
  split
  · split
    · split
      · simp [generateFollowUpResponse, emptyModelResponse]
      · rfl
    · rfl
  · rfl

/-- C10: `handleSlackFunctionCall` spreads `Object.values(arguments)`
positionally, so two calls with the same name and the same key/value pairs
in different insertion order invoke the handler with permuted arguments
and produce different results: with `sendMessage`, the reversed pair binds
`"hello"` as the channel and `"C1"` as the text, and the result object's
`channelId` differs. -/
theorem C10_argument_order_sensitivity :
    sendMessageCallA.name = sendMessageCallB.name ∧
    List.Perm sendMessageCallA.arguments sendMessageCallB.arguments ∧
    handleSlackFunctionCall trivialSlackApi sendMessageCallA ≠
      handleSlackFunctionCall trivialSlackApi sendMessageCallB := by
  refine ⟨rfl, List.Perm.swap _ _ _, ?_⟩
  intro h
  have h2 := congrArg (fun j => jGetStr j "channelId") h
  dsimp only at h2
  have e1 : jGetStr (handleSlackFunctionCall trivialSlackApi sendMessageCallA)
      "channelId" = some "C1" := rfl
  have e2 : jGetStr (handleSlackFunctionCall trivialSlackApi sendMessageCallB)
      "channelId" = some "hello" := rfl
  rw [e1, e2] at h2
  exact absurd h2 (by decide)

/-! ### JSON round-trip lemmas for the reply synthesis -/

theorem escape_tame : ∀ l : List Char, l.all tameChar = true →
    l.flatMap jsonEscapeChar = l := by
  intro l h
  induction l with
  | nil => rfl
  | cons c cs ih =>
    simp only [List.all_cons, Bool.and_eq_true] at h
    have hc := h.1
    simp only [tameChar, decide_eq_true_eq] at hc
    push_neg at hc
    simp only [List.flatMap_cons, jsonEscapeChar, hc.1, hc.2.1, hc.2.2.1, hc.2.2.2.1,
      hc.2.2.2.2, if_false, ih h.2]
    rfl

theorem jsb_quote (rest : List Char) :
    jsonParseStringBody ('"' :: rest) = some ([], rest) := by
  cases rest <;> rfl

theorem jsb_cons (c : Char) (rest : List Char) (h1 : c ≠ '"') (h2 : c ≠ '\\') :
    jsonParseStringBody (c :: rest) =
      (jsonParseStringBody rest).map fun p => (c :: p.1, p.2) := by
  cases rest with
  | nil => simp [jsonParseStringBody, h1, h2]
  | cons d rest2 => simp [jsonParseStringBody, h1, h2]

theorem parseStringBody_closes :
    ∀ l rest : List Char, l.all tameChar = true →
      jsonParseStringBody (l ++ '"' :: rest) = some (l, rest) := by
  intro l
  induction l with
  | nil => intro rest _; exact jsb_quote rest
  | cons c cs ih =>
    intro rest h
    simp only [List.all_cons, Bool.and_eq_true] at h
    have hc := h.1
    simp only [tameChar, decide_eq_true_eq] at hc
    push_neg at hc
    rw [List.cons_append, jsb_cons c _ hc.1 hc.2.1, ih rest h.2]
    rfl

theorem stringMk_data (s : String) : String.mk s.data = s := rfl

theorem stringify_ok_shape (m : String) (hm : tameText m = true) :
    (jsonStringify (okObjMsg m)).data =
      '\x7b' :: '"' :: 's' :: 'u' :: 'c' :: 'c' :: 'e' :: 's' :: 's' :: '"' :: ':' ::
        't' :: 'r' :: 'u' :: 'e' :: ',' :: '"' :: 'm' :: 'e' :: 's' :: 's' :: 'a' ::
        'g' :: 'e' :: '"' :: ':' :: '"' :: (m.data ++ '"' :: '\x7d' :: []) := by
  show ("\x7b\"success\":true,\"message\":" ++ jsonQuote m ++ "\x7d").data = _
  simp only [String.data_append, jsonQuote, escape_tame m.data hm, List.append_assoc,
    List.cons_append, List.nil_append]

theorem stringify_fail_shape (e : String) (he : tameText e = true) :
    (jsonStringify (failObj e)).data =
      '\x7b' :: '"' :: 's' :: 'u' :: 'c' :: 'c' :: 'e' :: 's' :: 's' :: '"' :: ':' ::
        'f' :: 'a' :: 'l' :: 's' :: 'e' :: ',' :: '"' :: 'e' :: 'r' :: 'r' :: 'o' ::
        'r' :: '"' :: ':' :: '"' :: (e.data ++ '"' :: '\x7d' :: []) := by
  show ("\x7b\"success\":false,\"error\":" ++ jsonQuote e ++ "\x7d").data = _
  simp only [String.data_append, jsonQuote, escape_tame e.data he, List.append_assoc,
    List.cons_append, List.nil_append]

theorem parse_ok_shape (f : Nat) (m : String) (hm : tameText m = true) :
    jsonParseValue (f + 1 + 1 + 1 + 1)
      ('\x7b' :: '"' :: 's' :: 'u' :: 'c' :: 'c' :: 'e' :: 's' :: 's' :: '"' :: ':' ::
        't' :: 'r' :: 'u' :: 'e' :: ',' :: '"' :: 'm' :: 'e' :: 's' :: 's' :: 'a' ::
        'g' :: 'e' :: '"' :: ':' :: '"' :: (m.data ++ '"' :: '\x7d' :: [])) =
      some (okObjMsg m, []) := by
  have h1 := parseStringBody_closes "success".data
    (':' :: 't' :: 'r' :: 'u' :: 'e' :: ',' :: '"' :: 'm' :: 'e' :: 's' :: 's' :: 'a' ::
      'g' :: 'e' :: '"' :: ':' :: '"' :: (m.data ++ '"' :: '\x7d' :: [])) (by decide)
  have h2 := parseStringBody_closes "message".data
    (':' :: '"' :: (m.data ++ '"' :: '\x7d' :: [])) (by decide)
  have h3 := parseStringBody_closes m.data ['\x7d'] hm
  simp only [List.cons_append, List.nil_append] at h1 h2
  simp [jsonParseValue, jsonParseFields, dropLit, h1, h2, h3, stringMk_data, okObjMsg]

theorem parse_fail_shape (f : Nat) (e : String) (he : tameText e = true) :
    jsonParseValue (f + 1 + 1 + 1 + 1)
      ('\x7b' :: '"' :: 's' :: 'u' :: 'c' :: 'c' :: 'e' :: 's' :: 's' :: '"' :: ':' ::
        'f' :: 'a' :: 'l' :: 's' :: 'e' :: ',' :: '"' :: 'e' :: 'r' :: 'r' :: 'o' ::
        'r' :: '"' :: ':' :: '"' :: (e.data ++ '"' :: '\x7d' :: [])) =
      some (failObj e, []) := by
  have h1 := parseStringBody_closes "success".data
    (':' :: 'f' :: 'a' :: 'l' :: 's' :: 'e' :: ',' :: '"' :: 'e' :: 'r' :: 'r' :: 'o' ::
      'r' :: '"' :: ':' :: '"' :: (e.data ++ '"' :: '\x7d' :: [])) (by decide)
  have h2 := parseStringBody_closes "error".data
    (':' :: '"' :: (e.data ++ '"' :: '\x7d' :: [])) (by decide)
  have h3 := parseStringBody_closes e.data ['\x7d'] he
  simp only [List.cons_append, List.nil_append] at h1 h2
  simp [jsonParseValue, jsonParseFields, dropLit, h1, h2, h3, stringMk_data, failObj]

theorem jsonParse_okObj (m : String) (hm : tameText m = true) :
    jsonParse (jsonStringify (okObjMsg m)) = some (okObjMsg m) := by
  have hd := stringify_ok_shape m hm
  have hl : (jsonStringify (okObjMsg m)).length = 29 + m.data.length := by
    show (jsonStringify (okObjMsg m)).data.length = _
    rw [hd]
    simp [List.length_append]
    omega
  unfold jsonParse
  rw [hd, hl]
  have h4 : 29 + m.data.length + 1 = 26 + m.data.length + 1 + 1 + 1 + 1 := by omega
  rw [h4, parse_ok_shape (26 + m.data.length) m hm]

theorem jsonParse_failObj (e : String) (he : tameText e = true) :
    jsonParse (jsonStringify (failObj e)) = some (failObj e) := by
  have hd := stringify_fail_shape e he
  have hl : (jsonStringify (failObj e)).length = 28 + e.data.length := by
    show (jsonStringify (failObj e)).data.length = _
    rw [hd]
    simp [List.length_append]
    omega
  unfold jsonParse
  rw [hd, hl]
  have h4 : 28 + e.data.length + 1 = 25 + e.data.length + 1 + 1 + 1 + 1 := by omega
  rw [h4, parse_fail_shape (25 + e.data.length) e he]

/-! ### The regex search of the reply synthesis on formatted lines -/

theorem dropLit_append : ∀ p l : List Char, dropLit p (p ++ l) = some l := by
  intro p
  induction p with
  | nil => intro l; rfl
  | cons c cs ih => intro l; simp [dropLit, ih l]

theorem takeWhile_append_all {p : Char → Bool} :
    ∀ l1 l2 : List Char, (∀ c ∈ l1, p c = true) →
      (∀ c, l2.head? = some c → p c = false) → (l1 ++ l2).takeWhile p = l1 := by
  intro l1
  induction l1 with
  | nil =>
    intro l2 _ h2
    cases l2 with
    | nil => rfl
    | cons c cs => simp [List.takeWhile, h2 c rfl]
  | cons c cs ih =>
    intro l2 h1 h2
    simp only [List.cons_append, List.takeWhile, h1 c (List.mem_cons_self c cs)]
    exact congrArg (List.cons c) (ih l2 (fun d hd => h1 d (List.mem_cons_of_mem c hd)) h2)

theorem fnMatchAt_format (name : String) (json : List Char) (hn : wordName name = true) :
    fnMatchAt ("Function ".data ++ (name.data ++ (" result: ".data ++ json))) =
      some (name.data, json) := by
  simp only [wordName, Bool.and_eq_true, Bool.not_eq_true', List.all_eq_true] at hn
  have hw : (name.data ++ (" result: ".data ++ json)).takeWhile isWordChar = name.data := by
    apply takeWhile_append_all _ _ hn.2
    intro c hc
    simp only [show (" result: ".data ++ json) = ' ' :: ("result: ".data ++ json) from rfl,
      List.head?_cons, Option.some.injEq] at hc
    rw [← hc]
    rfl
  have hne : name.data.isEmpty = false := by
    cases hd : name.data with
    | nil =>
      rw [hd] at hn
      exact absurd hn.1 (by decide)
    | cons a l => rfl
  unfold fnMatchAt
  rw [dropLit_append]
  simp only [hw, hne, Bool.false_eq_true, if_false, List.drop_left, dropLit_append]

theorem fnLineMatch_format (name : String) (s : String) (hn : wordName name = true) :
    fnLineMatch ("Function " ++ name ++ " result: " ++ s) = some (name, s) := by
  unfold fnLineMatch
  have hdata : ("Function " ++ name ++ " result: " ++ s).data =
      "Function ".data ++ (name.data ++ (" result: ".data ++ s.data)) := by
    simp [String.data_append, List.append_assoc]
  rw [hdata]
  have hm := fnMatchAt_format name s.data hn
  rw [show "Function ".data ++ (name.data ++ (" result: ".data ++ s.data)) =
    'F' :: ("unction ".data ++ (name.data ++ (" result: ".data ++ s.data))) from rfl] at hm ⊢
  simp only [fnSearch, hm]
  show some (String.mk name.data, String.mk s.data) = some (name, s)
  rw [stringMk_data, stringMk_data]

theorem extract_ok_of_roundtrip (n : String) (r : JValue) (hn : wordName n = true)
    (hparse : jsonParse (jsonStringify r) = some r) :
    ∃ v, extractSuccessMessage (formatFunctionCallResult n r) = Except.ok v := by
  unfold extractSuccessMessage formatFunctionCallResult
  rw [fnLineMatch_format n (jsonStringify r) hn]
  dsimp only
  rw [hparse]
  dsimp only
  split
  · exact ⟨_, rfl⟩
  · split
    · exact ⟨_, rfl⟩
    · exact ⟨_, rfl⟩

theorem collect_ok : ∀ lines : List String,
    (∀ r ∈ lines, ∃ v, extractSuccessMessage r = Except.ok v) →
      ∃ ms, collectSuccessMessages lines = Except.ok ms := by
  intro lines h
  induction lines with
  | nil => exact ⟨[], rfl⟩
  | cons r rest ih =>
    obtain ⟨v, hv⟩ := h r (List.mem_cons_self r rest)
    obtain ⟨ms, hms⟩ := ih fun x hx => h x (List.mem_cons_of_mem r hx)
    cases v with
    | none => exact ⟨ms, by simp [collectSuccessMessages, hv, hms]⟩
    | some m => exact ⟨m :: ms, by simp [collectSuccessMessages, hv, hms]⟩

theorem processFunctionCalls_cases (dispatch : FunctionCall → Except String JValue)
    (fu : List (Except String ModelResponse)) (calls : List FunctionCall)
    (ti : Option ThreadInfo) (hist : Option (List Msg)) :
    (processFunctionCalls dispatch fu calls ti hist).1 = (dispatchLoop dispatch calls).1 ∨
    ∃ (o : Except String ModelResponse) (fu2 : List (Except String ModelResponse))
      (hist2 : List Msg),
      fu = o :: fu2 ∧
      (processFunctionCalls dispatch fu calls ti hist).1 =
        (dispatchLoop dispatch calls).1 ++
          (processFunctionCalls dispatch fu2
            (generateFollowUpResponse (some o)).functionCalls ti (some hist2)).1 := by
  rcases ti with _ | t <;> rcases hist with _ | h
  · refine Or.inl ?_
    unfold processFunctionCalls
    rfl
  · refine Or.inl ?_
    unfold processFunctionCalls
    rfl
  · refine Or.inl ?_
    unfold processFunctionCalls
    rfl
  by_cases h1 : (dispatchLoop dispatch calls).2.length > 0
  · by_cases h2 : shouldContinueWorkflow (dispatchLoop dispatch calls).2 h = true
    · cases fu with
      | nil =>
        refine Or.inl ?_
        unfold processFunctionCalls
        simp [h1, h2]
      | cons o fu2 =>
        by_cases h3 : (generateFollowUpResponse (some o)).functionCalls.isEmpty = true
        · refine Or.inl ?_
          unfold processFunctionCalls
          simp [h1, h2, h3]
        · refine Or.inr ⟨o, fu2, h ++ [functionResultsMsg (dispatchLoop dispatch calls).2],
            rfl, ?_⟩
          conv_lhs => unfold processFunctionCalls
          simp [h1, h2, h3]
    · refine Or.inl ?_
      unfold processFunctionCalls
      simp [h1, h2]
  · refine Or.inl ?_
    unfold processFunctionCalls
    simp [h1]

theorem processFunctionCalls_lines_shape (dispatch : FunctionCall → Except String JValue) :
    ∀ (fu : List (Except String ModelResponse)) (calls : List FunctionCall)
      (ti : Option ThreadInfo) (hist : Option (List Msg)),
      (∀ c ∈ calls, wordName c.name = true) →
      (∀ r : ModelResponse, Except.ok r ∈ fu →
        ∀ c ∈ r.functionCalls, wordName c.name = true) →
      ∀ line ∈ (processFunctionCalls dispatch fu calls ti hist).1,
        ∃ c, wordName c.name = true ∧ line = resultLine dispatch c := by
  intro fu
  induction fu with
  | nil =>
    intro calls ti hist hcalls _ line hline
    rcases processFunctionCalls_cases dispatch [] calls ti hist with h | ⟨o, fu2, _, habs, _⟩
    · rw [h, dispatchLoop_fst] at hline
      obtain ⟨c, hc, rfl⟩ := List.mem_map.mp hline
      exact ⟨c, hcalls c hc, rfl⟩
    · exact List.noConfusion habs
  | cons o fu2 ih =>
    intro calls ti hist hcalls horacle line hline
    rcases processFunctionCalls_cases dispatch (o :: fu2) calls ti hist with
      h | ⟨o2, fu3, hist2, heq, h⟩
    · rw [h, dispatchLoop_fst] at hline
      obtain ⟨c, hc, rfl⟩ := List.mem_map.mp hline
      exact ⟨c, hcalls c hc, rfl⟩
    · cases heq
      rw [h] at hline
      rcases List.mem_append.mp hline with h1 | h2
      · rw [dispatchLoop_fst] at h1
        obtain ⟨c, hc, rfl⟩ := List.mem_map.mp h1
        exact ⟨c, hcalls c hc, rfl⟩
      · refine ih _ ti (some hist2) ?_ ?_ line h2
        · cases o with
          | ok r => exact fun c hc => horacle r (List.mem_cons_self _ _) c hc
          | error e =>
            intro c hc
            simp [generateFollowUpResponse, emptyModelResponse] at hc
        · exact fun r hr c hc => horacle r (List.mem_cons_of_mem _ hr) c hc

theorem listIncludes_nil : ∀ l : List Char, listIncludes l [] = true := by
  intro l
  cases l <;> rfl

theorem isPrefixOf_append_self : ∀ q r : List Char, q.isPrefixOf (q ++ r) = true := by
  intro q
  induction q with
  | nil => intro r; cases r <;> rfl
  | cons a as iha => intro r; simp [List.isPrefixOf, iha r]

theorem listIncludes_append_left : ∀ p rest : List Char, listIncludes (p ++ rest) p = true := by
  intro p rest
  cases p with
  | nil => exact listIncludes_nil _
  | cons c cs =>
    have hpre := isPrefixOf_append_self (c :: cs) rest
    simp only [List.cons_append] at hpre ⊢
    simp [listIncludes, hpre]

theorem errorLine_includes (nm e : String) :
    strIncludes ("Error executing function " ++ nm ++ ": " ++ e)
      "Error executing function" = true := by
  unfold strIncludes
  have h : ("Error executing function " ++ nm ++ ": " ++ e).data =
      "Error executing function".data ++ (' ' :: (nm.data ++ (':' :: ' ' :: e.data))) := by
    simp only [String.data_append, List.append_assoc]
    rfl
  rw [h]
  exact listIncludes_append_left _ _

/-- C3: a `{success:false, error}` (or throwing) dispatch inside a batch
neither aborts the batch nor the run: the run ends in the normal reply
(not the error path), the reply's function-result lines begin with one line
per call in call order, and the failing call's line — the formatted
failure object, or the `Error executing function` line — is among them.
Dispatch results are assumed to be of the handler shapes
(`{success, message}` / `{success:false, error}` with escape-free strings,
or a rejection) and function names `\w+`, which is what the registered
handlers and the registry provide. -/
theorem C3_failure_in_reply (dispatch : FunctionCall → Except String JValue)
    (providerContent : String) (calls : List FunctionCall)
    (followUps : List (Except String ModelResponse)) (ti : ThreadInfo)
    (sys? : Option Msg) (txt : String) (c0 : FunctionCall) (e : String)
    (hmem : c0 ∈ calls)
    (hfail : dispatch c0 = Except.ok (failObj e) ∨ dispatch c0 = Except.error e)
    (hnames : ∀ c ∈ calls, wordName c.name = true)
    (horacle : ∀ r : ModelResponse, Except.ok r ∈ followUps →
      ∀ c ∈ r.functionCalls, wordName c.name = true)
    (hshapes : ∀ c : FunctionCall,
      (∃ m, tameText m = true ∧ dispatch c = Except.ok (okObjMsg m)) ∨
      (∃ e2, tameText e2 = true ∧ dispatch c = Except.ok (failObj e2)) ∨
      (∃ e2, dispatch c = Except.error e2)) :
    (∃ text,
      processMessageAndGenerateResponse dispatch
          (Except.ok ⟨providerContent, calls⟩) followUps ti sys? txt =
        Reply.normal text
          (processFunctionCalls dispatch followUps calls (some ti)
            (some (sys?.toList ++ [{ role := "user", content := txt }]))).1) ∧
      (processFunctionCalls dispatch followUps calls (some ti)
          (some (sys?.toList ++ [{ role := "user", content := txt }]))).1.take calls.length =
        calls.map (resultLine dispatch) ∧
      resultLine dispatch c0 ∈ (processFunctionCalls dispatch followUps calls (some ti)
          (some (sys?.toList ++ [{ role := "user", content := txt }]))).1 ∧
      (resultLine dispatch c0 = formatFunctionCallResult c0.name (failObj e) ∨
        resultLine dispatch c0 = "Error executing function " ++ c0.name ++ ": " ++ e) := by
  have htake : (processFunctionCalls dispatch followUps calls (some ti)
      (some (sys?.toList ++ [{ role := "user", content := txt }]))).1.take calls.length =
      calls.map (resultLine dispatch) := by
    obtain ⟨extra, hx⟩ := processFunctionCalls_prefix dispatch followUps calls (some ti)
      (some (sys?.toList ++ [{ role := "user", content := txt }]))
    rw [hx, ← dispatchLoop_fst_length dispatch calls, List.take_left, dispatchLoop_fst]
  have hmemL : resultLine dispatch c0 ∈ (processFunctionCalls dispatch followUps calls
      (some ti) (some (sys?.toList ++ [{ role := "user", content := txt }]))).1 := by
    apply List.take_subset calls.length
    rw [htake]
    exact List.mem_map_of_mem (resultLine dispatch) hmem
  have hchar : resultLine dispatch c0 = formatFunctionCallResult c0.name (failObj e) ∨
      resultLine dispatch c0 = "Error executing function " ++ c0.name ++ ": " ++ e := by
    rcases hfail with h | h
    · exact Or.inl (by simp [resultLine, h])
    · exact Or.inr (by simp [resultLine, h])
  refine ⟨?_, htake, hmemL, hchar⟩
  · -- the reply shape
    have hne : calls ≠ [] := List.ne_nil_of_mem hmem
    have hie : calls.isEmpty = false := by
      cases calls with
      | nil => exact absurd rfl hne
      | cons a l => rfl
    have hlen : 0 < (processFunctionCalls dispatch followUps calls (some ti)
        (some (sys?.toList ++ [{ role := "user", content := txt }]))).1.length := by
      obtain ⟨extra, hx⟩ := processFunctionCalls_prefix dispatch followUps calls (some ti)
        (some (sys?.toList ++ [{ role := "user", content := txt }]))
      rw [hx, List.length_append, dispatchLoop_fst_length]
      cases calls with
      | nil => exact absurd rfl hne
      | cons a l => simp
    unfold processMessageAndGenerateResponse
    dsimp only
    rw [hie]
    simp only [Bool.false_eq_true, if_false]
    rw [if_pos hlen]
    cases hall : (processFunctionCalls dispatch followUps calls (some ti)
        (some (sys?.toList ++ [{ role := "user", content := txt }]))).1.all
        (fun r => !strIncludes r "Error executing function") with
    | false =>
      simp only [Bool.false_eq_true, if_false]
      exact ⟨providerContent, rfl⟩
    | true =>
      simp only [if_true]
      have hcollect : ∃ ms, collectSuccessMessages
          (processFunctionCalls dispatch followUps calls (some ti)
            (some (sys?.toList ++ [{ role := "user", content := txt }]))).1 =
          Except.ok ms := by
        apply collect_ok
        intro r hr
        obtain ⟨c, hcw, rfl⟩ := processFunctionCalls_lines_shape dispatch followUps calls
          (some ti) (some (sys?.toList ++ [{ role := "user", content := txt }]))
          hnames horacle r hr
        rcases hshapes c with ⟨m, hm, hd⟩ | ⟨e2, he2, hd⟩ | ⟨e2, hd⟩
        · rw [show resultLine dispatch c = formatFunctionCallResult c.name (okObjMsg m) by
            simp [resultLine, hd]]
          exact extract_ok_of_roundtrip c.name (okObjMsg m) hcw (jsonParse_okObj m hm)
        · rw [show resultLine dispatch c = formatFunctionCallResult c.name (failObj e2) by
            simp [resultLine, hd]]
          exact extract_ok_of_roundtrip c.name (failObj e2) hcw (jsonParse_failObj e2 he2)
        · exfalso
          have hmem2 := List.all_eq_true.mp hall _ hr
          rw [show resultLine dispatch c =
              "Error executing function " ++ c.name ++ ": " ++ e2 by
            simp [resultLine, hd]] at hmem2
          rw [errorLine_includes c.name e2] at hmem2
          exact Bool.noConfusion hmem2
      obtain ⟨ms, hms⟩ := hcollect
      rw [hms]
      dsimp only
      split
      · exact ⟨_, rfl⟩
      · exact ⟨providerContent, rfl⟩

theorem C3_witness :
    (∃ text,
      processMessageAndGenerateResponse
          (fun _ : FunctionCall => (Except.ok (failObj "channel_not_found") : Except String JValue))
          (Except.ok ⟨"", [⟨"sendMessage", []⟩]⟩) [] default none "send it" =
        Reply.normal text
          (processFunctionCalls
            (fun _ : FunctionCall => (Except.ok (failObj "channel_not_found") : Except String JValue))
            [] [⟨"sendMessage", []⟩] (some default)
            (some [{ role := "user", content := "send it" }])).1) ∧
      (processFunctionCalls
          (fun _ : FunctionCall => (Except.ok (failObj "channel_not_found") : Except String JValue))
          [] [⟨"sendMessage", []⟩] (some default)
          (some [{ role := "user", content := "send it" }])).1.take
          ([(⟨"sendMessage", []⟩ : FunctionCall)]).length =
        [(⟨"sendMessage", []⟩ : FunctionCall)].map
          (resultLine (fun _ => Except.ok (failObj "channel_not_found"))) ∧
      resultLine (fun _ => Except.ok (failObj "channel_not_found")) ⟨"sendMessage", []⟩ ∈
        (processFunctionCalls
          (fun _ : FunctionCall => (Except.ok (failObj "channel_not_found") : Except String JValue))
          [] [⟨"sendMessage", []⟩] (some default)
          (some [{ role := "user", content := "send it" }])).1 ∧
      (resultLine (fun _ => Except.ok (failObj "channel_not_found")) ⟨"sendMessage", []⟩ =
          formatFunctionCallResult "sendMessage" (failObj "channel_not_found") ∨
        resultLine (fun _ => Except.ok (failObj "channel_not_found")) ⟨"sendMessage", []⟩ =
          "Error executing function " ++ "sendMessage" ++ ": " ++ "channel_not_found") :=
  C3_failure_in_reply
    (fun _ : FunctionCall => (Except.ok (failObj "channel_not_found") : Except String JValue))
    "" [⟨"sendMessage", []⟩] [] default none "send it" ⟨"sendMessage", []⟩
    "channel_not_found"
    (List.mem_singleton.mpr rfl)
    (Or.inl rfl)
    (by decide)
    (by simp)
    (fun c => Or.inr (Or.inl ⟨"channel_not_found", by decide, rfl⟩))

end Synaptic
